import Mathlib

/-!
Verification development for the catalog module of the pycsep repository
(`csep/core/catalogs.py`).

The module is embedded shallowly:

* numpy structured arrays holding numeric event records become `NDArray`
  (a field-name list plus a list of rows of numeric cells);
* floating-point cell values and parsed float literals are modelled as
  exact decimal numbers `Dec` (an integer mantissa over a power of ten);
  comparisons on such decimals are exact, which agrees with IEEE double
  comparison whenever the decimals are exactly representable, and is the
  standard exact-arithmetic reading of the source;
* the byte-level UCERF3 merged binary format is modelled over `List Nat`
  (one `Nat` in `[0, 256)` per byte), with big-endian encode and decode
  functions and a model of `numpy.fromfile` including its silent
  short-read-at-end-of-file behaviour;
* Python exceptions become explicit error values in `Except`.
-/

/-- Exact decimal number: the value `m / 10 ^ e`.  Stands in for the
floating-point values of the source (magnitudes, thresholds, ...); decimal
literals that the source compares are represented exactly. -/
structure Dec where
  m : Int
  e : Nat
deriving DecidableEq, Repr

/-- Value-level comparison `a < b`, by cross-multiplying the mantissas. -/
def Dec.ltb (a b : Dec) : Bool := a.m * 10 ^ b.e < b.m * 10 ^ a.e

/-- Value-level comparison `a ≤ b`. -/
def Dec.leb (a b : Dec) : Bool := a.m * 10 ^ b.e ≤ b.m * 10 ^ a.e

/-- Value-level equality `a == b` (equality of the denoted rationals). -/
def Dec.eqb (a b : Dec) : Bool := a.m * 10 ^ b.e = b.m * 10 ^ a.e

/-- The zero decimal. -/
def Dec.zero : Dec := ⟨0, 0⟩

/-!
## Python string splitting

`statement.split(' ')` in Python splits on every single space, keeping
empty tokens between consecutive separators; `"".split(' ')` is `['']`.
`splitOnSpace` mirrors that behaviour on the character list of the string
(the space separator is written `Char.ofNat 32`).
-/

/-- Python `str.split(' ')` on a character list: split at every space
character, keeping empty chunks. -/
def splitOnSpace : List Char → List (List Char)
  | [] => [[]]
  | c :: t =>
    if c.toNat = 32 then [] :: splitOnSpace t
    else
      match splitOnSpace t with
      | h :: r => (c :: h) :: r
      | [] => [[c]]

/-- Python `statement.split(' ')`, producing `String` tokens. -/
def pySplit (s : String) : List String := (splitOnSpace s.data).map (fun l => ⟨l⟩)

/-!
## Python `float(value)`

`parseFloat` models `float(value)` on ordinary decimal literals:
an optional sign, a mantissa made of an integer part and an optional
fractional part separated by a dot (at least one digit in total), and an
optional `e`/`E` exponent with its own optional sign.  Special spellings
such as `inf`, `nan`, embedded underscores or surrounding whitespace are
not modelled; no claim exercises them.
-/

/-- Split a character list at every occurrence of the separator
character, keeping empty chunks (Python `str.split(sep)`). -/
def splitOnChar (sep : Char) : List Char → List (List Char)
  | [] => [[]]
  | c :: t =>
    if c = sep then [] :: splitOnChar sep t
    else
      match splitOnChar sep t with
      | h :: r => (c :: h) :: r
      | [] => [[c]]

/-- Strip one optional leading sign; `true` means negative. -/
def splitSign : List Char → Bool × List Char
  | c :: t => if c = Char.ofNat 45 then (true, t) else if c = Char.ofNat 43 then (false, t) else (false, c :: t)
  | [] => (false, [])

/-- Value of a digit list read in base 10 (the caller checks digit-hood). -/
def digitsVal (l : List Char) : Nat := l.foldl (fun a c => 10 * a + (c.toNat - 48)) 0

/-- Parse the mantissa part (no sign, no exponent) into mantissa and
power-of-ten denominator exponent. -/
def parseMantissa (l : List Char) : Option Dec :=
  match splitOnChar (Char.ofNat 46) l with
  | [ip] =>
    if ip ≠ [] ∧ ip.all Char.isDigit then some ⟨(digitsVal ip : Int), 0⟩ else none
  | [ip, fp] =>
    if (ip ++ fp) ≠ [] ∧ (ip ++ fp).all Char.isDigit then
      some ⟨(digitsVal (ip ++ fp) : Int), fp.length⟩
    else none
  | _ => none

/-- Apply a sign flag to a decimal. -/
def Dec.withSign (neg : Bool) (d : Dec) : Dec := if neg then ⟨-d.m, d.e⟩ else d

/-- Apply a decimal exponent (times `10 ^ k` or divide by `10 ^ k`). -/
def Dec.scale (eneg : Bool) (k : Nat) (d : Dec) : Dec :=
  if eneg then ⟨d.m, d.e + k⟩ else ⟨d.m * 10 ^ k, d.e⟩

/-- Model of Python `float(value)` on a character list. -/
def parseFloatChars (l : List Char) : Option Dec :=
  let (neg, l1) := splitSign l
  let l2 := l1.map (fun c => if c = Char.ofNat 69 then Char.ofNat 101 else c)
  match splitOnChar (Char.ofNat 101) l2 with
  | [mant] => (parseMantissa mant).map (Dec.withSign neg)
  | [mant, ex] =>
    match parseMantissa mant with
    | none => none
    | some d =>
      let (eneg, ed) := splitSign ex
      if ed ≠ [] ∧ ed.all Char.isDigit then
        some (Dec.withSign neg (Dec.scale eneg (digitsVal ed) d))
      else none
  | _ => none

/-- Model of Python `float(value)` on a string. -/
def parseFloat (s : String) : Option Dec := parseFloatChars s.data

/-!
## The catalog data model

`NDArray` models a numpy structured array of numeric records: the dtype
field names together with the rows (one list of cells per record).
`Catalog` models a `BaseCatalog` instance: the identity metadata set by
`BaseCatalog.__init__` plus the owned record sequence `catalog`
(`None` or a structured array).
-/

/-- Numpy structured array of numeric records (dtype names plus rows). -/
structure NDArray where
  fields : List String
  rows : List (List Dec)
deriving DecidableEq, Repr

/-- A `BaseCatalog` instance: identity metadata and the owned record
sequence (`self._catalog`, `None` or a structured array). -/
structure Catalog where
  filename : Option String
  catalog_id : Option Int
  format : Option String
  name : Option String
  catalog : Option NDArray
deriving DecidableEq, Repr

/-- The Python exceptions that `BaseCatalog.filter` can raise, in source
order of occurrence. -/
inductive FilterError
  /-- `statement.split(' ')` does not unpack into three names
  (`ValueError`). -/
  | valueErrorUnpack
  /-- `operators[type]` fails: unknown operator token (`KeyError`). -/
  | keyErrorOperator
  /-- `self.catalog[name]` with `self.catalog` equal to `None`
  (`TypeError`). -/
  | typeErrorNone
  /-- `self.catalog[name]` with `name` absent from the dtype
  (`KeyError`). -/
  | keyErrorField
  /-- `float(value)` fails (`ValueError`). -/
  | valueErrorFloat
deriving DecidableEq, Repr

/-- The operator table of `BaseCatalog.filter`:
`{'>': gt, '<': lt, '>=': ge, '<=': le, '==': eq}`. -/
def lookupOp : String → Option (Dec → Dec → Bool)
  | ">" => some (fun a b => Dec.ltb b a)
  | "<" => some (fun a b => Dec.ltb a b)
  | ">=" => some (fun a b => Dec.leb b a)
  | "<=" => some (fun a b => Dec.leb a b)
  | "==" => some (fun a b => Dec.eqb a b)
  | _ => none

/-- Model of `BaseCatalog.filter(statement)`.  The first component is the
outcome of the call (the returned catalog, or the exception raised); the
second component is the state of the catalog object after the call.  The
steps mirror the source lines in order: unpack
`statement.split(' ')`, look up `operators[type]`, subscript
`self.catalog[name]` (which raises if the record sequence is `None` or
the field is unknown), evaluate `float(value)`, select the matching rows
with `numpy.where`, and only then assign `self.catalog = filtered` and
return `self`. -/
def filterRun (c : Catalog) (statement : String) : Except FilterError Catalog × Catalog :=
  match pySplit statement with
  | [name, type, value] =>
    match lookupOp type with
    | none => (.error .keyErrorOperator, c)
    | some op =>
      match c.catalog with
      | none => (.error .typeErrorNone, c)
      | some arr =>
        if name ∈ arr.fields then
          match parseFloat value with
          | none => (.error .valueErrorFloat, c)
          | some v =>
            let i := List.indexOf name arr.fields
            let filtered : NDArray :=
              ⟨arr.fields, arr.rows.filter (fun r => op (r.getD i Dec.zero) v)⟩
            let c2 : Catalog := { c with catalog := some filtered }
            (.ok c2, c2)
        else (.error .keyErrorField, c)
  | _ => (.error .valueErrorUnpack, c)

/-!
## Event counting (`get_number_of_events`, `get_cumulative_number_of_events`)

`numpy.cumsum(numpy.ones(n))` is the array `[1.0, 2.0, ..., n]`; its
entries are exact small integers, so the running count is modelled over
`Int`.
-/

/-- Model of `BaseCatalog.get_number_of_events`: the length of the owned
record sequence, or zero when it is `None`. -/
def get_number_of_events (c : Catalog) : Nat :=
  match c.catalog with
  | some arr => arr.rows.length
  | none => 0

/-- Model of `numpy.ones(n)`: a list of `n` ones. -/
def npOnes (n : Nat) : List Int := List.replicate n 1

/-- Model of `numpy.cumsum` with a running accumulator. -/
def cumsumFrom (acc : Int) : List Int → List Int
  | [] => []
  | x :: t => (acc + x) :: cumsumFrom (acc + x) t

/-- Model of `numpy.cumsum` (running sums, same length as the input). -/
def cumsum (l : List Int) : List Int := cumsumFrom 0 l

/-- Model of `BaseCatalog.get_cumulative_number_of_events`:
`numpy.cumsum(numpy.ones(num_events))`. -/
def get_cumulative_number_of_events (c : Catalog) : List Int :=
  cumsum (npOnes (get_number_of_events c))

/-!
## The UCERF3 merged binary format

Bytes are `Nat` values below 256.  `beBytes w v` is the `w`-byte
big-endian encoding of `v` (mod `2 ^ (8 * w)`); `beVal` is the inverse
read.  An event record is a list of twelve field values laid out with the
widths of `UCERF3Catalog.event_dtype`; the dtype is packed, so the record
occupies the sum of the field widths.
-/

/-- Big-endian byte encoding of a natural number in `w` bytes
(most significant byte first; the value is taken mod `2 ^ (8 * w)`). -/
def beBytes : Nat → Nat → List Nat
  | 0, _ => []
  | w + 1, v => beBytes w (v / 256) ++ [v % 256]

/-- Big-endian value of a byte list. -/
def beVal (bs : List Nat) : Nat := bs.foldl (fun a b => 256 * a + b) 0

/-- Reinterpret an unsigned 32-bit value as the signed integer numpy
obtains for a big-endian `>i4` read (two-complement). -/
def toSigned32 (n : Nat) : Int :=
  if n < 2 ^ 31 then (n : Int) else (n : Int) - 2 ^ 32

/-- The field names of `UCERF3Catalog.event_dtype`, in dtype order. -/
def eventFieldNames : List String :=
  ["rupture_id", "parent_id", "generation", "origin_time", "latitude",
   "longitude", "depth", "magnitude", "dist_to_parent", "erf_index",
   "fss_index", "grid_node_index"]

/-- The byte widths of the twelve `UCERF3Catalog.event_dtype` fields, in
dtype order: `>i4, >i4, >i2, >i8, >f8, >f8, >f8, >f8, >f8, >i4, >i4,
>i4`. -/
def eventWidths : List Nat := [4, 4, 2, 8, 8, 8, 8, 8, 8, 4, 4, 4]

/-- Size in bytes of one packed event record of
`UCERF3Catalog.event_dtype` (the dtype itemsize: the sum of the field
widths, with no padding). -/
def eventRecordSize : Nat := eventWidths.sum

/-- Size in bytes of a catalog body of `n` event records. -/
def catalogBodySize (n : Nat) : Nat := n * eventRecordSize

/-- Encode a list of field values against a list of widths,
concatenating the big-endian encodings. -/
def encodeFields : List Nat → List Nat → List Nat
  | w :: ws, v :: vs => beBytes w v ++ encodeFields ws vs
  | _, _ => []

/-- Decode a byte list against a list of widths, reading one big-endian
value per width. -/
def decodeFields : List Nat → List Nat → List Nat
  | [], _ => []
  | w :: ws, bs => beVal (bs.take w) :: decodeFields ws (bs.drop w)

/-- Encode one 12-field event record into its packed 70-byte layout. -/
def encodeEvent (e : List Nat) : List Nat := encodeFields eventWidths e

/-- Decode one packed event record into its twelve field values. -/
def decodeEvent (bs : List Nat) : List Nat := decodeFields eventWidths bs

/-- Model of `numpy.fromfile(f, dtype=event_dtype, count=k)` for a
nonnegative item count: read complete records while at least one record
of bytes remains and the count is not exhausted.  When the stream runs
out before the count (a short read), numpy silently returns the records
read so far and the file handle is left at end of file with any
trailing partial record consumed; no exception is raised. -/
def fromfileEventsN : Nat → List Nat → List (List Nat) × List Nat
  | 0, bs => ([], bs)
  | k + 1, bs =>
    if eventRecordSize ≤ bs.length then
      let r := fromfileEventsN k (bs.drop eventRecordSize)
      (decodeEvent (bs.take eventRecordSize) :: r.1, r.2)
    else ([], [])

/-- Model of `numpy.fromfile(f, dtype=event_dtype, count=c)` with a
possibly signed count: numpy reads all remaining items for a negative
count (`count=-1`), otherwise up to `c` items. -/
def fromfileEvents (count : Int) (bs : List Nat) : List (List Nat) × List Nat :=
  if count < 0 then fromfileEventsN bs.length bs else fromfileEventsN count.toNat bs

/-- One catalog produced by `UCERF3Catalog.load_catalogs`: the keyword
arguments of the `cls(...)` construction that the generator yields
(`filename`, the zero-based `catalog_id`, and the record array; the
record array is a numpy array, so the `catalog` setter binds it with no
conversion). -/
structure U3Catalog where
  filename : String
  catalog_id : Nat
  events : List (List Nat)
deriving DecidableEq, Repr

/-- The exception a short `numpy.fromfile` header read leads to: an
empty result array subscripted at `[0]` (`IndexError`). -/
inductive LoadErr
  | indexError
deriving DecidableEq, Repr

/-- The per-catalog loop of `UCERF3Catalog.load_catalogs`: for each
iteration read a 6-byte header with `header_dtype` (2-byte big-endian
`file_version`, then 4-byte big-endian `catalog_size`), read
`catalog_size` event records, construct the catalog and yield it.  A
header that cannot be read in full leaves `numpy.fromfile` with an empty
array whose `[0]` subscript raises `IndexError`.  The lazy generator is
modelled as the finite list of the catalogs it yields in order (or the
first exception; catalogs yielded before a later failing iteration are
not represented separately). -/
def loadLoop (filename : String) : Nat → Nat → List Nat → Except LoadErr (List U3Catalog)
  | 0, _, _ => .ok []
  | k + 1, idx, bs =>
    if 6 ≤ bs.length then
      let size := toSigned32 (beVal ((bs.take 6).drop 2))
      let r := fromfileEvents size (bs.drop 6)
      match loadLoop filename k (idx + 1) r.2 with
      | .ok tl => .ok (⟨filename, idx, r.1⟩ :: tl)
      | .error e => .error e
    else .error .indexError

/-- Model of `UCERF3Catalog.load_catalogs(filename)` on the byte content
of the file: read a 4-byte big-endian `>i4` catalog count (an
`IndexError` if even that is missing), then run the per-catalog loop
`range(count)` times (a negative count gives an empty range). -/
def load_catalogs (filename : String) (bs : List Nat) : Except LoadErr (List U3Catalog) :=
  if 4 ≤ bs.length then
    loadLoop filename (toSigned32 (beVal (bs.take 4))).toNat 0 (bs.drop 4)
  else .error .indexError

/-- Encode one catalog section of the merged file: the 6-byte header
(2-byte big-endian `file_version`, 4-byte big-endian `catalog_size` equal
to the number of records) followed by the packed records. -/
def encodeCatalog (c : Nat × List (List Nat)) : List Nat :=
  beBytes 2 c.1 ++ beBytes 4 c.2.length ++ (c.2.map encodeEvent).flatten

/-- Encode a merged UCERF3 file from a list of catalogs (each a
`file_version` with its event records): the 4-byte big-endian simulation
count followed by the catalog sections. -/
def encodeFile (cats : List (Nat × List (List Nat))) : List Nat :=
  beBytes 4 cats.length ++ (cats.map encodeCatalog).flatten

/-- A well-formed merged file description: fewer than `2 ^ 31` catalogs,
each declaring fewer than `2 ^ 31` records, every record carrying the
twelve schema fields. -/
def WFFile (cats : List (Nat × List (List Nat))) : Prop :=
  cats.length < 2 ^ 31 ∧
    ∀ c ∈ cats, c.2.length < 2 ^ 31 ∧ ∀ e ∈ c.2, e.length = 12

/-- The catalogs `load_catalogs` yields for an encoded file: one per
section, tagged with consecutive zero-based identifiers, holding the
declared records (each record re-read through its packed encoding). -/
def expectedCatalogs (filename : String) : Nat → List (Nat × List (List Nat)) → List U3Catalog
  | _, [] => []
  | idx, c :: t =>
    ⟨filename, idx, c.2.map (fun e => decodeEvent (encodeEvent e))⟩ ::
      expectedCatalogs filename (idx + 1) t

/-!
## The `catalog` setter and the construction lifecycle

`BaseCatalog.catalog` is a property: its setter stores the assigned
value, and when the value is neither `None` nor already a
`numpy.ndarray` it rebinds `self._catalog` to
`self._get_catalog_as_ndarray()`.  Only `ComcatCatalog` defines that
conversion routine (it turns the libcomcat event list into a structured
array); on the other variants the call raises `AttributeError`.
-/

/-- One libcomcat event object (the attributes
`_get_catalog_as_ndarray` reads): `.id`, `.time` (a datetime, modelled
as an abstract instant), `.latitude`, `.longitude`, `.depth`,
`.magnitude`. -/
structure ComcatEvent where
  id : String
  time : Int
  latitude : Dec
  longitude : Dec
  depth : Dec
  magnitude : Dec
deriving DecidableEq, Repr

/-- One row of the structured array built by
`ComcatCatalog._get_catalog_as_ndarray`, dtype
`[id S256, epoch_time f4, latitude f4, longitude f4, depth f4,
magnitude f4]` (the id byte-string and the float cells are modelled
exactly). -/
structure ComcatNDRow where
  id : String
  epoch_time : Int
  latitude : Dec
  longitude : Dec
  depth : Dec
  magnitude : Dec
deriving DecidableEq, Repr

/-- A value assignable to the `catalog` property of a Comcat-flavoured
catalog: either a structured `numpy.ndarray` (canonical) or the raw
libcomcat event list (not an ndarray). -/
inductive CatalogData
  | nd (rows : List ComcatNDRow)
  | raw (events : List ComcatEvent)
deriving DecidableEq, Repr

/-- The `isinstance(self._catalog, numpy.ndarray)` test of the setter. -/
def CatalogData.isNdarray : CatalogData → Bool
  | nd _ => true
  | raw _ => false

/-- Model of `ComcatCatalog._get_catalog_as_ndarray`: one structured row
per event, in order, with the event time pushed through
`datetime_to_utc_epoch` (the external time collaborator, passed in as
`dtToEpoch`). -/
def comcatGetCatalogAsNdarray (dtToEpoch : Int → Int) (events : List ComcatEvent) :
    List ComcatNDRow :=
  events.map (fun ev => ⟨ev.id, dtToEpoch ev.time, ev.latitude, ev.longitude, ev.depth, ev.magnitude⟩)

/-- The exception raised when the setter needs the conversion routine on
a variant that does not define it. -/
inductive SetErr
  | attributeError
deriving DecidableEq, Repr

/-- Model of the `BaseCatalog.catalog` property setter.  `convert` is
the `_get_catalog_as_ndarray` routine of the variant (`none` for
`BaseCatalog`, `CSEPCatalog` and `UCERF3Catalog`, which do not define
one, so the dispatch raises `AttributeError`).  A `None` value and an
ndarray value are stored as given; any other value is replaced by the
result of the conversion routine before the assignment finishes. -/
def catalogSet (convert : Option (List ComcatEvent → List ComcatNDRow)) :
    Option CatalogData → Except SetErr (Option CatalogData)
  | none => .ok none
  | some (.nd rows) => .ok (some (.nd rows))
  | some (.raw events) =>
    match convert with
    | some f => .ok (some (.nd (f events)))
    | none => .error .attributeError

/-- A catalog object as built by `BaseCatalog.__init__`: the metadata
fields and the owned record sequence after the setter ran. -/
structure CatalogObj where
  filename : Option String
  catalog_id : Option Int
  format : Option String
  name : Option String
  catalog : Option CatalogData
deriving DecidableEq, Repr

/-- Model of `BaseCatalog.__init__`.  The metadata attributes are set,
the `catalog` argument goes through the property setter, and then, only
when `lazy_load` is false and the bound record sequence is `None`, the
variant loading procedure `self.load_catalog()` runs (once).  The
returned number counts the `load_catalog` invocations performed during
construction. -/
def baseInit (convert : Option (List ComcatEvent → List ComcatNDRow))
    (load : CatalogObj → CatalogObj) (filename : Option String)
    (catalogArg : Option CatalogData) (catalog_id : Option Int)
    (format nm : Option String) (lazy_load : Bool) :
    Except SetErr (CatalogObj × Nat) :=
  match catalogSet convert catalogArg with
  | .error err => .error err
  | .ok catVal =>
    let s : CatalogObj := ⟨filename, catalog_id, format, nm, catVal⟩
    if lazy_load = false ∧ s.catalog = none then .ok (load s, 1) else .ok (s, 0)

/-- Model of reading the `catalog` property
(`BaseCatalog.catalog.getter`): it returns `self._catalog` as stored and
invokes no loading procedure; the second component counts the
`load_catalog` invocations the access performs (always zero in the
source). -/
def catalogGetter (s : CatalogObj) : Option CatalogData × Nat := (s.catalog, 0)

/-!
## `ComcatCatalog.__init__` time-window validation

The external time collaborators `epoch_time_to_utc_datetime` and
`timedelta_from_years` are abstract parameters (`epochToDt`,
`tdFromYears`); instants and timedeltas are modelled as integers, with
`+` for datetime-plus-timedelta.  Validation happens before the parent
constructor runs, hence before any network or file access.
-/

/-- The `ValueError` exceptions of `ComcatCatalog.__init__`, in source
order. -/
inductive ComcatInitErr
  /-- `start_time or start_epoch must not be None.` -/
  | missingStart
  /-- `end_time or time_delta must not be None.` -/
  | missingEnd
  /-- `start_time must be greater than end_time.` (raised when the
  resolved start instant is later than the resolved end instant). -/
  | startAfterEnd
deriving DecidableEq, Repr

/-- Model of the time-window resolution and validation of
`ComcatCatalog.__init__`: reject when neither `start_time` nor
`start_epoch` is given, then when neither `end_time` nor
`duration_in_years` is given; resolve the start instant (an explicit
`start_time` wins over `start_epoch`), resolve the end instant (an
explicit `end_time` wins over `duration_in_years`); reject when the
resolved start is later than the resolved end; otherwise return the
resolved pair. -/
def comcatInitTimes (epochToDt : Int → Int) (tdFromYears : Int → Int)
    (start_time end_time : Option Int) (start_epoch : Option Int)
    (duration_in_years : Option Int) : Except ComcatInitErr (Int × Int) :=
  if start_time = none ∧ start_epoch = none then .error .missingStart
  else if end_time = none ∧ duration_in_years = none then .error .missingEnd
  else
    let st := match start_time with
      | some t => t
      | none => epochToDt (start_epoch.getD 0)
    let et := match end_time with
      | some t => t
      | none => st + tdFromYears (duration_in_years.getD 0)
    if st > et then .error .startAfterEnd else .ok (st, et)

/-!
## Concrete sample inputs used by witnesses and counterexamples
-/

/-- A sample catalog with magnitudes `3.0, 4.0, 5.5`. -/
def demoCat : Catalog :=
  ⟨none, none, none, none, some ⟨["magnitude"], [[⟨30, 1⟩], [⟨40, 1⟩], [⟨55, 1⟩]]⟩⟩

/-- A sample two-catalog merged file description: file version 1
throughout, first catalog holding one all-zero record, second catalog
empty. -/
def demoCats : List (Nat × List (List Nat)) :=
  [(1, [List.replicate 12 0]), (1, [])]

/-- A merged file truncated mid-record: it declares one catalog of one
record, but only five bytes of the 70-byte record body follow the
header. -/
def truncatedFile : List Nat :=
  beBytes 4 1 ++ beBytes 2 1 ++ beBytes 4 1 ++ [9, 9, 9, 9, 9]

/-- A loading procedure that populates the record sequence with an empty
structured array (used to exhibit that deferred mode never calls it). -/
def demoLoad : CatalogObj → CatalogObj :=
  fun s => ⟨s.filename, s.catalog_id, s.format, s.name, some (.nd [])⟩

/-- The catalog object built by a deferred-mode construction with no
record sequence supplied. -/
def demoDeferredObj : CatalogObj := ⟨none, none, none, none, none⟩

/-- A sample libcomcat event. -/
def demoEvent : ComcatEvent := ⟨"ev1", 5, ⟨35, 0⟩, ⟨-120, 0⟩, ⟨10, 0⟩, ⟨41, 1⟩⟩

theorem beBytes_length (w v : Nat) : (beBytes w v).length = w := by
  induction w generalizing v with
  | zero => rfl
  | succ k ih => simp [beBytes, ih]

theorem beVal_append_byte (l : List Nat) (b : Nat) : beVal (l ++ [b]) = 256 * beVal l + b := by
  simp [beVal, List.foldl_append]

theorem beVal_beBytes (w v : Nat) : beVal (beBytes w v) = v % 256 ^ w := by
  induction w generalizing v with
  | zero => simp [beBytes, beVal, Nat.mod_one]
  | succ k ih =>
    rw [beBytes, beVal_append_byte, ih, pow_succ, Nat.mul_comm (256 ^ k) 256, Nat.mod_mul]
    omega

theorem eventRecordSize_eq : eventRecordSize = 70 := by decide

theorem encodeFields_length (ws vs : List Nat) (h : vs.length = ws.length) :
    (encodeFields ws vs).length = ws.sum := by
  induction ws generalizing vs with
  | nil => cases vs <;> simp_all [encodeFields]
  | cons w t ih =>
    cases vs with
    | nil => simp at h
    | cons v vt =>
      simp only [encodeFields, List.length_append, List.sum_cons, beBytes_length]
      rw [ih vt (by simpa using h)]

theorem encodeEvent_length (e : List Nat) (h : e.length = 12) :
    (encodeEvent e).length = eventRecordSize := by
  unfold encodeEvent eventRecordSize
  exact encodeFields_length eventWidths e (by rw [h]; rfl)

theorem decodeFields_length (ws bs : List Nat) : (decodeFields ws bs).length = ws.length := by
  induction ws generalizing bs with
  | nil => rfl
  | cons w t ih => simp [decodeFields, ih]

theorem fromfileEventsN_encoded (es : List (List Nat)) (rest : List Nat)
    (h : ∀ e ∈ es, e.length = 12) :
    fromfileEventsN es.length ((es.map encodeEvent).flatten ++ rest) =
      (es.map (fun e => decodeEvent (encodeEvent e)), rest) := by
  induction es with
  | nil => simp [fromfileEventsN]
  | cons e t ih =>
    have he : (encodeEvent e).length = eventRecordSize :=
      encodeEvent_length e (h e (by simp))
    simp only [List.map_cons, List.flatten_cons, List.length_cons, List.append_assoc]
    rw [fromfileEventsN]
    have hlen : eventRecordSize ≤ (encodeEvent e ++ ((t.map encodeEvent).flatten ++ rest)).length := by
      simp [he]
    rw [if_pos hlen, List.take_left' he, List.drop_left' he,
      ih (fun x hx => h x (by simp [hx]))]

theorem fromfileEventsN_short (es : List (List Nat)) (junk : List Nat) (count : Nat)
    (hcount : es.length < count) (hjunk : junk.length < eventRecordSize)
    (h : ∀ e ∈ es, e.length = 12) :
    fromfileEventsN count ((es.map encodeEvent).flatten ++ junk) =
      (es.map (fun e => decodeEvent (encodeEvent e)), []) := by
  induction es generalizing count with
  | nil =>
    cases count with
    | zero => omega
    | succ k =>
      rw [fromfileEventsN]
      simp only [List.map_nil, List.flatten_nil, List.nil_append]
      rw [if_neg (by omega)]
  | cons e t ih =>
    cases count with
    | zero => omega
    | succ k =>
      have he : (encodeEvent e).length = eventRecordSize :=
        encodeEvent_length e (h e (by simp))
      simp only [List.map_cons, List.flatten_cons, List.append_assoc]
      rw [fromfileEventsN]
      have hlen : eventRecordSize ≤ (encodeEvent e ++ ((t.map encodeEvent).flatten ++ junk)).length := by
        simp [he]
      rw [if_pos hlen, List.take_left' he, List.drop_left' he,
        ih k (by simpa using hcount) (fun x hx => h x (by simp [hx]))]

theorem header_length_eq (v n : Nat) : (beBytes 2 v ++ beBytes 4 n).length = 6 := by
  simp [beBytes_length]

theorem loadLoop_encoded (fname : String) (cats : List (Nat × List (List Nat))) (idx : Nat)
    (h : ∀ c ∈ cats, c.2.length < 2 ^ 31 ∧ ∀ e ∈ c.2, e.length = 12) :
    loadLoop fname cats.length idx ((cats.map encodeCatalog).flatten) =
      .ok (expectedCatalogs fname idx cats) := by
  induction cats generalizing idx with
  | nil => simp [loadLoop, expectedCatalogs]
  | cons c t ih =>
    obtain ⟨hsize, hev⟩ := h c (by simp)
    have hh6 : (beBytes 2 c.1 ++ beBytes 4 c.2.length).length = 6 := header_length_eq _ _
    have hb2 : (beBytes 2 c.1).length = 2 := beBytes_length _ _
    simp only [List.map_cons, List.flatten_cons, List.length_cons]
    rw [show encodeCatalog c ++ (t.map encodeCatalog).flatten =
        (beBytes 2 c.1 ++ beBytes 4 c.2.length) ++
          ((c.2.map encodeEvent).flatten ++ (t.map encodeCatalog).flatten) from by
      simp [encodeCatalog, List.append_assoc]]
    rw [loadLoop]
    have hcond : 6 ≤ ((beBytes 2 c.1 ++ beBytes 4 c.2.length) ++
        ((c.2.map encodeEvent).flatten ++ (t.map encodeCatalog).flatten)).length := by
      rw [List.length_append, hh6]; omega
    rw [if_pos hcond]
    have hmod : c.2.length % 256 ^ 4 = c.2.length := by
      apply Nat.mod_eq_of_lt
      have hp : (2 : Nat) ^ 31 < 256 ^ 4 := by norm_num
      omega
    have hts : toSigned32 (c.2.length % 256 ^ 4) = (c.2.length : Int) := by
      rw [hmod, toSigned32, if_pos hsize]
    have hff : fromfileEvents ((c.2.length : Nat) : Int)
        ((c.2.map encodeEvent).flatten ++ (t.map encodeCatalog).flatten) =
        (c.2.map (fun e => decodeEvent (encodeEvent e)), (t.map encodeCatalog).flatten) := by
      rw [fromfileEvents, if_neg (by omega), Int.toNat_natCast]
      exact fromfileEventsN_encoded _ _ hev
    simp only [List.take_left' hh6, List.drop_left' hh6, List.drop_left' hb2,
      beVal_beBytes, hts, hff]
    rw [ih (idx + 1) (fun x hx => h x (by simp [hx]))]
    simp [expectedCatalogs]

theorem load_catalogs_encoded (fname : String) (cats : List (Nat × List (List Nat)))
    (hwf : WFFile cats) :
    load_catalogs fname (encodeFile cats) = .ok (expectedCatalogs fname 0 cats) := by
  obtain ⟨hc, hcats⟩ := hwf
  have hb4 : (beBytes 4 cats.length).length = 4 := beBytes_length _ _
  rw [load_catalogs, encodeFile]
  have hcond : 4 ≤ (beBytes 4 cats.length ++ (cats.map encodeCatalog).flatten).length := by
    rw [List.length_append, hb4]; omega
  rw [if_pos hcond]
  have hmod : cats.length % 256 ^ 4 = cats.length := by
    apply Nat.mod_eq_of_lt
    have hp : (2 : Nat) ^ 31 < 256 ^ 4 := by norm_num
    omega
  have hts : toSigned32 (cats.length % 256 ^ 4) = (cats.length : Int) := by
    rw [hmod, toSigned32, if_pos hc]
  simp only [List.take_left' hb4, List.drop_left' hb4, beVal_beBytes, hts,
    Int.toNat_natCast]
  exact loadLoop_encoded fname cats 0 hcats

theorem expectedCatalogs_length (fname : String) (idx : Nat)
    (cats : List (Nat × List (List Nat))) :
    (expectedCatalogs fname idx cats).length = cats.length := by
  induction cats generalizing idx with
  | nil => rfl
  | cons c t ih => simp [expectedCatalogs, ih]

theorem expectedCatalogs_get (fname : String) (idx i : Nat)
    (cats : List (Nat × List (List Nat))) (hi : i < (expectedCatalogs fname idx cats).length)
    (hi2 : i < cats.length) :
    (expectedCatalogs fname idx cats).get ⟨i, hi⟩ =
      ⟨fname, idx + i, (cats.get ⟨i, hi2⟩).2.map (fun e => decodeEvent (encodeEvent e))⟩ := by
  induction cats generalizing idx i with
  | nil => simp at hi2
  | cons c t ih =>
    cases i with
    | zero => simp [expectedCatalogs]
    | succ j =>
      have hj : j < (expectedCatalogs fname (idx + 1) t).length := by
        rw [expectedCatalogs_length]
        simpa using hi2
      have := ih (idx + 1) j hj (by simpa using hi2)
      simp only [expectedCatalogs, List.get_cons_succ, this]
      have harith : idx + 1 + j = idx + (j + 1) := by omega
      rw [harith]

/-- C1: for every well-formed merged UCERF3 binary file, `load_catalogs`
reads the 4-byte big-endian catalog count, then per catalog a 6-byte
header (2-byte big-endian `file_version`, 4-byte big-endian
`catalog_size`) followed by exactly `catalog_size` packed 12-field event
records, and yields one catalog per iteration whose `catalog_id` is its
zero-based position and whose record count equals the declared
`catalog_size`. -/
theorem load_catalogs_wellformed (fname : String) (cats : List (Nat × List (List Nat)))
    (hwf : WFFile cats) :
    load_catalogs fname (encodeFile cats) = .ok (expectedCatalogs fname 0 cats) ∧
    (expectedCatalogs fname 0 cats).length = cats.length ∧
    ∀ i (hi : i < (expectedCatalogs fname 0 cats).length) (hi2 : i < cats.length),
      ((expectedCatalogs fname 0 cats).get ⟨i, hi⟩).catalog_id = i ∧
      ((expectedCatalogs fname 0 cats).get ⟨i, hi⟩).events.length = (cats.get ⟨i, hi2⟩).2.length ∧
      ∀ ev ∈ ((expectedCatalogs fname 0 cats).get ⟨i, hi⟩).events, ev.length = 12 := by
  refine ⟨load_catalogs_encoded fname cats hwf, expectedCatalogs_length fname 0 cats, ?_⟩
  intro i hi hi2
  rw [expectedCatalogs_get fname 0 i cats hi hi2]
  refine ⟨by simp, by simp, ?_⟩
  intro ev hev
  simp only [List.mem_map] at hev
  obtain ⟨e, _, rfl⟩ := hev
  unfold decodeEvent
  rw [decodeFields_length]
  rfl

theorem load_catalogs_wellformed_witness :
    load_catalogs ("ucerf.bin") (encodeFile demoCats) =
      .ok (expectedCatalogs ("ucerf.bin") 0 demoCats) ∧
    (expectedCatalogs ("ucerf.bin") 0 demoCats).length = 2 := by
  have h := load_catalogs_wellformed ("ucerf.bin") demoCats (by unfold WFFile; decide)
  exact ⟨h.1, h.2.1⟩

/-- C3 counterexample: on a merged file whose single catalog declares
one record but whose body is cut off after five bytes, `load_catalogs`
raises nothing and yields a catalog with zero records, although the
header declared one. -/
theorem load_catalogs_truncated_counterexample :
    load_catalogs ("trunc.bin") truncatedFile = .ok [⟨("trunc.bin"), 0, []⟩] ∧
    toSigned32 (beVal (((truncatedFile.drop 4).take 6).drop 2)) = 1 := by
  exact ⟨rfl, rfl⟩

/-- C3 amended: a merged file truncated mid-record does not make
`load_catalogs` fail; numpy reads short silently, and the loader yields
a catalog holding only the complete records that were present, fewer
than the declared `catalog_size`. -/
theorem load_catalogs_truncated_silent (fname : String) (v n : Nat)
    (es : List (List Nat)) (junk : List Nat)
    (hn : n < 2 ^ 31) (hes : es.length < n) (hjunk : junk.length < eventRecordSize)
    (hev : ∀ e ∈ es, e.length = 12) :
    load_catalogs fname
        (beBytes 4 1 ++ beBytes 2 v ++ beBytes 4 n ++ ((es.map encodeEvent).flatten ++ junk)) =
      .ok [⟨fname, 0, es.map (fun e => decodeEvent (encodeEvent e))⟩] := by
  have hb4 : (beBytes 4 1).length = 4 := beBytes_length _ _
  have hh6 : (beBytes 2 v ++ beBytes 4 n).length = 6 := header_length_eq _ _
  have hb2 : (beBytes 2 v).length = 2 := beBytes_length _ _
  rw [show beBytes 4 1 ++ beBytes 2 v ++ beBytes 4 n ++ ((es.map encodeEvent).flatten ++ junk) =
      beBytes 4 1 ++ ((beBytes 2 v ++ beBytes 4 n) ++ ((es.map encodeEvent).flatten ++ junk)) from by
    simp [List.append_assoc]]
  rw [load_catalogs]
  have hcond : 4 ≤ (beBytes 4 1 ++
      ((beBytes 2 v ++ beBytes 4 n) ++ ((es.map encodeEvent).flatten ++ junk))).length := by
    rw [List.length_append, hb4]; omega
  rw [if_pos hcond]
  have h1 : (1 : Nat) % 256 ^ 4 = 1 := by norm_num
  have hts1 : toSigned32 ((1 : Nat) % 256 ^ 4) = (1 : Int) := by
    rw [h1, toSigned32, if_pos (by norm_num)]
    norm_num
  simp only [List.take_left' hb4, List.drop_left' hb4, beVal_beBytes, hts1]
  rw [show ((1 : Int).toNat) = 1 from rfl]
  rw [loadLoop]
  have hcond6 : 6 ≤ ((beBytes 2 v ++ beBytes 4 n) ++
      ((es.map encodeEvent).flatten ++ junk)).length := by
    rw [List.length_append, hh6]; omega
  rw [if_pos hcond6]
  have hmod : n % 256 ^ 4 = n := by
    apply Nat.mod_eq_of_lt
    have hp : (2 : Nat) ^ 31 < 256 ^ 4 := by norm_num
    omega
  have hts : toSigned32 (n % 256 ^ 4) = (n : Int) := by
    rw [hmod, toSigned32, if_pos hn]
  have hff : fromfileEvents ((n : Nat) : Int) ((es.map encodeEvent).flatten ++ junk) =
      (es.map (fun e => decodeEvent (encodeEvent e)), []) := by
    rw [fromfileEvents, if_neg (by omega), Int.toNat_natCast]
    exact fromfileEventsN_short es junk n hes hjunk hev
  simp only [List.take_left' hh6, List.drop_left' hh6, List.drop_left' hb2,
    beVal_beBytes, hts, hff]
  rw [loadLoop]

theorem load_catalogs_truncated_silent_witness :
    load_catalogs ("trunc.bin")
        (beBytes 4 1 ++ beBytes 2 1 ++ beBytes 4 1 ++
          ((([] : List (List Nat)).map encodeEvent).flatten ++ [9, 9, 9, 9, 9])) =
      .ok [⟨("trunc.bin"), 0, []⟩] := by
  have h := load_catalogs_truncated_silent ("trunc.bin") 1 1 [] [9, 9, 9, 9, 9]
    (by norm_num) (by decide) (by decide) (by decide)
  simpa using h

/-- C4 counterexample: one packed `event_dtype` record occupies 70
bytes (4+4+2+8 plus five 8-byte floats plus three 4-byte ints), not the
68 bytes the claim states. -/
theorem event_record_size_not_68 : eventRecordSize ≠ 68 := by decide

/-- C4 amended: each packed 12-field event record occupies exactly 70
bytes, so a catalog body of `n` records occupies exactly `n * 70`
bytes; encoding any 12-field record produces exactly `eventRecordSize`
bytes. -/
theorem event_record_size_70 :
    eventRecordSize = 70 ∧ (∀ n, catalogBodySize n = n * 70) ∧
    ∀ e : List Nat, e.length = 12 → (encodeEvent e).length = eventRecordSize := by
  refine ⟨by decide, fun n => by rw [catalogBodySize, eventRecordSize_eq], ?_⟩
  exact fun e he => encodeEvent_length e he

theorem event_record_size_70_witness :
    (encodeEvent (List.replicate 12 0)).length = eventRecordSize :=
  event_record_size_70.2.2 (List.replicate 12 0) (by decide)

/-- C2: on a bound catalog, a well-formed three-token statement with a
known operator, a schema field and a float-parseable value makes
`filter` replace the owned record sequence in place with exactly the
rows satisfying the comparison (keeping their original relative order,
an empty selection included), leaving all other attributes unchanged and
returning the very catalog object that was mutated. -/
theorem filter_selects_matching_rows (c : Catalog) (arr : NDArray)
    (statement name type value : String) (op : Dec → Dec → Bool) (v : Dec)
    (hc : c.catalog = some arr)
    (hsplit : pySplit statement = [name, type, value])
    (hop : lookupOp type = some op)
    (hf : name ∈ arr.fields)
    (hv : parseFloat value = some v) :
    (filterRun c statement).2 =
      { c with catalog := some ⟨arr.fields, arr.rows.filter
          (fun r => op (r.getD (List.indexOf name arr.fields) Dec.zero) v)⟩ } ∧
    (filterRun c statement).1 = .ok (filterRun c statement).2 ∧
    (arr.rows.filter
        (fun r => op (r.getD (List.indexOf name arr.fields) Dec.zero) v)).Sublist arr.rows := by
  unfold filterRun
  rw [hsplit]
  dsimp only
  rw [hop, hc]
  dsimp only
  rw [if_pos hf, hv]
  exact ⟨rfl, rfl, List.filter_sublist arr.rows⟩

theorem filter_selects_matching_rows_witness :
    (filterRun demoCat ("magnitude >= 4.0")).2 =
      ⟨none, none, none, none, some ⟨["magnitude"], [[⟨40, 1⟩], [⟨55, 1⟩]]⟩⟩ := by
  have h := filter_selects_matching_rows demoCat
    ⟨["magnitude"], [[⟨30, 1⟩], [⟨40, 1⟩], [⟨55, 1⟩]]⟩
    ("magnitude >= 4.0") ("magnitude") (">=") ("4.0")
    (fun a b => Dec.leb b a) ⟨40, 1⟩ rfl rfl rfl (by decide) rfl
  rw [h.1]
  rfl

/-- C7: on a three-token statement, an operator token outside the
operator table makes `filter` raise (`KeyError`, the ValidationError
class of the spec taxonomy) before touching the record sequence, and a
field name absent from the bound schema likewise raises; neither case
returns a catalog. -/
theorem filter_invalid_raises (c : Catalog) (arr : NDArray)
    (statement name type value : String)
    (hsplit : pySplit statement = [name, type, value]) :
    (lookupOp type = none → filterRun c statement = (.error .keyErrorOperator, c)) ∧
    ∀ op, lookupOp type = some op → c.catalog = some arr → name ∉ arr.fields →
      filterRun c statement = (.error .keyErrorField, c) := by
  constructor
  · intro hop
    unfold filterRun
    rw [hsplit]
    dsimp only
    rw [hop]
  · intro op hop hc hnf
    unfold filterRun
    rw [hsplit]
    dsimp only
    rw [hop, hc]
    dsimp only
    rw [if_neg hnf]

theorem filter_invalid_raises_witness :
    filterRun demoCat ("magnitude >>> 4.0") = (.error .keyErrorOperator, demoCat) ∧
    filterRun demoCat ("depth > 4.0") = (.error .keyErrorField, demoCat) := by
  constructor
  · exact (filter_invalid_raises demoCat ⟨["magnitude"], []⟩
      ("magnitude >>> 4.0") ("magnitude") (">>>") ("4.0") rfl).1 rfl
  · exact (filter_invalid_raises demoCat
      ⟨["magnitude"], [[⟨30, 1⟩], [⟨40, 1⟩], [⟨55, 1⟩]]⟩
      ("depth > 4.0") ("depth") (">") ("4.0") rfl).2
      (fun a b => Dec.ltb b a) rfl rfl (by decide)

/-- C10: whenever `filter` raises, for any of its failure reasons, the
owned record sequence (and the whole catalog object) is left unchanged:
the in-place assignment happens only after row selection succeeded. -/
theorem filter_error_leaves_catalog_unchanged (c : Catalog) (statement : String)
    (e : FilterError) (h : (filterRun c statement).1 = .error e) :
    (filterRun c statement).2 = c := by
  unfold filterRun at h ⊢
  repeat' split at h <;> try rfl
  all_goals simp_all

theorem filter_error_unchanged_witness :
    (filterRun demoCat ("magnitude >>> 4.0")).1 = .error .keyErrorOperator ∧
    (filterRun demoCat ("magnitude >>> 4.0")).2 = demoCat :=
  ⟨rfl, filter_error_leaves_catalog_unchanged demoCat ("magnitude >>> 4.0") .keyErrorOperator rfl⟩

theorem cumsumFrom_replicate_one (n : Nat) (a : Int) :
    cumsumFrom a (List.replicate n 1) =
      (List.range n).map (fun i : Nat => a + (i : Int) + 1) := by
  induction n generalizing a with
  | zero => rfl
  | succ k ih =>
    rw [List.replicate_succ]
    show (a + 1) :: cumsumFrom (a + 1) (List.replicate k 1) = _
    rw [ih, List.range_succ_eq_map]
    simp only [List.map_cons, List.map_map]
    congr 1
    · push_cast
      ring
    · refine List.map_congr_left (fun i _ => ?_)
      simp only [Function.comp_apply]
      push_cast
      ring

theorem get_cumulative_closed_form (c : Catalog) :
    get_cumulative_number_of_events c =
      (List.range (get_number_of_events c)).map (fun i : Nat => (i : Int) + 1) := by
  unfold get_cumulative_number_of_events cumsum npOnes
  rw [cumsumFrom_replicate_one]
  exact List.map_congr_left (fun i _ => by omega)

/-- C8: on a bound record sequence of N rows,
`get_number_of_events` returns N and
`get_cumulative_number_of_events` returns the ordered running count
`1, 2, ..., N`; with no bound sequence, or with N equal to zero, the
count is zero and the cumulative sequence is empty. -/
theorem event_count_and_cumulative (c : Catalog) :
    (∀ arr, c.catalog = some arr →
      get_number_of_events c = arr.rows.length ∧
      get_cumulative_number_of_events c =
        (List.range arr.rows.length).map (fun i : Nat => (i : Int) + 1)) ∧
    (c.catalog = none →
      get_number_of_events c = 0 ∧ get_cumulative_number_of_events c = []) ∧
    (get_number_of_events c = 0 → get_cumulative_number_of_events c = []) := by
  refine ⟨?_, ?_, ?_⟩
  · intro arr hc
    have hn : get_number_of_events c = arr.rows.length := by
      unfold get_number_of_events
      rw [hc]
    refine ⟨hn, ?_⟩
    rw [get_cumulative_closed_form, hn]
  · intro hc
    have hn : get_number_of_events c = 0 := by
      unfold get_number_of_events
      rw [hc]
    exact ⟨hn, by rw [get_cumulative_closed_form, hn]; rfl⟩
  · intro hn
    rw [get_cumulative_closed_form, hn]
    rfl

theorem event_count_and_cumulative_witness :
    get_number_of_events demoCat = 3 ∧
    get_cumulative_number_of_events demoCat = [1, 2, 3] := by
  have h := (event_count_and_cumulative demoCat).1
    ⟨["magnitude"], [[⟨30, 1⟩], [⟨40, 1⟩], [⟨55, 1⟩]]⟩ rfl
  refine ⟨h.1, ?_⟩
  rw [h.2]
  rfl

/-- C5 counterexample: a catalog constructed in deferred-load mode with
no record sequence supplied keeps `None` in place; the first access to
the `catalog` property returns `None` and performs zero `load_catalog`
invocations, although the loading procedure would have populated the
sequence — no access-triggered loading exists. -/
theorem deferred_load_counterexample :
    baseInit none demoLoad none none none none none true = .ok (demoDeferredObj, 0) ∧
    catalogGetter demoDeferredObj = (none, 0) ∧
    (demoLoad demoDeferredObj).catalog = some (.nd []) :=
  ⟨rfl, rfl, rfl⟩

/-- C5 amended: the concrete loading procedure is never triggered by an
access to the record sequence; in deferred mode (`lazy_load` true) a
catalog constructed without records stays unloaded and reading the
property returns `None` with zero `load_catalog` invocations, while in
eager mode (`lazy_load` false) `load_catalog` runs exactly once, at
construction time. -/
theorem deferred_mode_never_loads (convert : Option (List ComcatEvent → List ComcatNDRow))
    (load : CatalogObj → CatalogObj) (fn : Option String) (cid : Option Int)
    (fmt nm : Option String) :
    baseInit convert load fn none cid fmt nm true = .ok (⟨fn, cid, fmt, nm, none⟩, 0) ∧
    catalogGetter ⟨fn, cid, fmt, nm, none⟩ = (none, 0) ∧
    baseInit convert load fn none cid fmt nm false = .ok (load ⟨fn, cid, fmt, nm, none⟩, 1) :=
  ⟨rfl, rfl, rfl⟩

/-- C6: `ComcatCatalog.__init__` validates the time window before any
I/O (the checks precede the parent constructor, the only route to a
load): it rejects a missing start form, then a missing end form, and in
each of the four resolution combinations — (`start_time`, `end_time`),
(`start_time`, `duration_in_years`), (`start_epoch`, `end_time`),
(`start_epoch`, `duration_in_years`) — it rejects a resolved start
later than the resolved end and otherwise resolves the pair; an
explicit `start_time` wins over `start_epoch` and an explicit
`end_time` wins over `duration_in_years` (the ignored form never
changes the outcome). -/
theorem comcat_time_window_validation (epochToDt tdFromYears : Int → Int) :
    (∀ et d, comcatInitTimes epochToDt tdFromYears none et none d = .error .missingStart) ∧
    (∀ t se, comcatInitTimes epochToDt tdFromYears (some t) none se none =
      .error .missingEnd) ∧
    (∀ e, comcatInitTimes epochToDt tdFromYears none none (some e) none =
      .error .missingEnd) ∧
    (∀ t u se d, comcatInitTimes epochToDt tdFromYears (some t) (some u) se d =
      if t > u then .error .startAfterEnd else .ok (t, u)) ∧
    (∀ t se d, comcatInitTimes epochToDt tdFromYears (some t) none se (some d) =
      if t > t + tdFromYears d then .error .startAfterEnd
      else .ok (t, t + tdFromYears d)) ∧
    (∀ u e d, comcatInitTimes epochToDt tdFromYears none (some u) (some e) d =
      if epochToDt e > u then .error .startAfterEnd else .ok (epochToDt e, u)) ∧
    (∀ e d, comcatInitTimes epochToDt tdFromYears none none (some e) (some d) =
      if epochToDt e > epochToDt e + tdFromYears d then .error .startAfterEnd
      else .ok (epochToDt e, epochToDt e + tdFromYears d)) ∧
    (∀ t u se d, comcatInitTimes epochToDt tdFromYears (some t) (some u) se d =
      comcatInitTimes epochToDt tdFromYears (some t) (some u) none none) ∧
    (∀ t se d, comcatInitTimes epochToDt tdFromYears (some t) none se (some d) =
      comcatInitTimes epochToDt tdFromYears (some t) none none (some d)) ∧
    (∀ u e d, comcatInitTimes epochToDt tdFromYears none (some u) (some e) d =
      comcatInitTimes epochToDt tdFromYears none (some u) (some e) none) := by
  refine ⟨?_, ?_, ?_, ?_, ?_, ?_, ?_, ?_, ?_, ?_⟩
  · intro et d
    simp [comcatInitTimes]
  · intro t se
    simp [comcatInitTimes]
  · intro e
    simp [comcatInitTimes]
  · intro t u se d
    simp [comcatInitTimes]
  · intro t se d
    simp [comcatInitTimes]
  · intro u e d
    simp [comcatInitTimes]
  · intro e d
    simp [comcatInitTimes]
  · intro t u se d
    simp [comcatInitTimes]
  · intro t se d
    simp [comcatInitTimes]
  · intro u e d
    simp [comcatInitTimes]

/-- C9 counterexample: on the variants that do not define a conversion
routine (`BaseCatalog`, `CSEPCatalog`, `UCERF3Catalog`), assigning a
non-`None` value that is not already an ndarray does not complete in
canonical form: the setter dispatch raises `AttributeError`. -/
theorem setter_no_conversion_counterexample :
    catalogSet none (some (.raw [demoEvent])) = .error .attributeError := rfl

/-- C9 amended: whenever a `catalog` assignment completes, the stored
record sequence is `None` or a canonical structured array; on the one
variant that defines the conversion routine (`ComcatCatalog`), a raw
event list is converted by `_get_catalog_as_ndarray` before the
assignment finishes, while `None` and ndarray values are stored as
given. -/
theorem setter_normalizes_when_convertible :
    (∀ (convert : Option (List ComcatEvent → List ComcatNDRow)) val res,
      catalogSet convert val = .ok res →
        res = none ∨ ∃ rows, res = some (.nd rows)) ∧
    (∀ (dtToEpoch : Int → Int) events,
      catalogSet (some (comcatGetCatalogAsNdarray dtToEpoch)) (some (.raw events)) =
        .ok (some (.nd (comcatGetCatalogAsNdarray dtToEpoch events)))) ∧
    (∀ (convert : Option (List ComcatEvent → List ComcatNDRow)) rows,
      catalogSet convert (some (.nd rows)) = .ok (some (.nd rows))) ∧
    (∀ (convert : Option (List ComcatEvent → List ComcatNDRow)),
      catalogSet convert none = .ok none) := by
  refine ⟨?_, fun dtToEpoch events => rfl, fun convert rows => rfl, fun convert => rfl⟩
  intro convert val res h
  match val with
  | none =>
    left
    cases h
    rfl
  | some (.nd rows) =>
    right
    cases h
    exact ⟨rows, rfl⟩
  | some (.raw events) =>
    match convert with
    | some f =>
      right
      cases h
      exact ⟨f events, rfl⟩
    | none => cases h

theorem setter_normalizes_witness :
    some (CatalogData.nd (comcatGetCatalogAsNdarray (fun t => t) [demoEvent])) = none ∨
    ∃ rows, some (CatalogData.nd (comcatGetCatalogAsNdarray (fun t => t) [demoEvent])) =
      some (.nd rows) :=
  setter_normalizes_when_convertible.1 (some (comcatGetCatalogAsNdarray (fun t => t)))
    (some (.raw [demoEvent])) _ rfl
